import Mathlib

/-!
Verification of the AI-Intel staged aggregation core against its specification.

The Python source is shallowly embedded: pure functions become Lean functions,
the mutable state objects (scheduler state, dedup state, reports collection)
become explicit values threaded through the functions, and the external
boundaries (datetime parsing/subtraction, the LLM HTTP call, the hash used for
report ids) become oracle parameters.  Python floats are idealised as rationals.
-/

namespace AIIntel

/-! ## String helpers with Python semantics

Python strings are sequences of code points; Lean `String.data` is the code
point list, so slicing and membership are modelled on `List Char`.
`pyOr` is Python's `a or b` on strings (empty string is falsy). -/

def pyOr (a b : String) : String := if a = "" then b else a

/-- Whether `pre` is a leading segment of `l` (used to build the substring test). -/
def leadsList : List Char → List Char → Bool
  | [], _ => true
  | _ :: _, [] => false
  | a :: as, b :: bs => a == b && leadsList as bs

/-- Python's `needle in hay` on strings: contiguous-subsequence test. -/
def containsSeq (needle : List Char) : List Char → Bool
  | [] => leadsList needle []
  | c :: rest => leadsList needle (c :: rest) || containsSeq needle rest

/-- Python's `sub in s` for strings. -/
def strContains (hay needle : String) : Bool := containsSeq needle.data hay.data

/-- Python's `s.lower()` (code-point-wise, as in the ASCII sources handled here). -/
def lcData (s : String) : List Char := s.data.map Char.toLower

/-- Python's `l[-n:]` for `n > 0`: the at-most-`n` most recent entries. -/
def pyTail (n : Nat) (l : List α) : List α := l.drop (l.length - n)

/-! ## Data model: `models/update.py`

`Update` is the item record exchanged between collectors and processors.
`published_at` stays an opaque string; the datetime computations done on it
(`parse_published_at` + `hours_ago`, resp. date subtraction) are oracle
parameters of the processors that need them.  A missing / `None` / empty id is
represented by `""`, matching Python falsiness of the extracted `uid`. -/

structure Update where
  id : String
  title : String
  url : String
  source : String
  publishedAt : String
  score : ℚ
  tags : List String
  summary : String
  starsToday : Option ℚ
deriving DecidableEq, Repr

/-! ## Scheduler: `core/scheduler.py`

`STAGES = ("collect", "process", "generate")`.  The persisted per-stage
`last_success` markers become an explicit record of `Option String` dates.
`Scheduler.run` / `Scheduler._execute_stage` become `runNormal` / `runForced`;
whether `pipeline.run_stage` raises is abstracted by `bodyOk : Stage → Bool`.
Besides the final state we log which stage bodies were executed and for which
stages a success marker was written, since the claims speak about both. -/

inductive Stage where
  | collect
  | process
  | generate
deriving DecidableEq, Repr

structure SchedState where
  collect : Option String
  process : Option String
  generate : Option String
deriving DecidableEq, Repr

/-- `StateStore.get_stage_last_success`. -/
def getSuccess (st : SchedState) : Stage → Option String
  | .collect => st.collect
  | .process => st.process
  | .generate => st.generate

/-- `StateStore.set_stage_last_success`: updates one stage's marker only. -/
def setSuccess (st : SchedState) (s : Stage) (d : String) : SchedState :=
  match s with
  | .collect => { st with collect := some d }
  | .process => { st with process := some d }
  | .generate => { st with generate := some d }

structure RunLog where
  state : SchedState
  executed : List Stage
  recorded : List Stage
deriving DecidableEq, Repr

/-- `Scheduler._execute_stage`: run the body; only on success write today's
date as the stage's `last_success`. -/
def execStage (today : String) (bodyOk : Stage → Bool) (log : RunLog) (s : Stage) : RunLog :=
  if bodyOk s then
    ⟨setSuccess log.state s today, log.executed ++ [s], log.recorded ++ [s]⟩
  else
    ⟨log.state, log.executed ++ [s], log.recorded⟩

/-- One iteration of the normal-mode loop in `Scheduler.run`: skip when done
today, skip `process`/`generate` when the predecessor is not done today,
otherwise execute the stage. -/
def normalStep (today : String) (bodyOk : Stage → Bool) (log : RunLog) (s : Stage) : RunLog :=
  if getSuccess log.state s = some today then log
  else if s = .process ∧ getSuccess log.state .collect ≠ some today then log
  else if s = .generate ∧ getSuccess log.state .process ≠ some today then log
  else execStage today bodyOk log s

/-- `Scheduler.run` with `force=False`: the three stages in fixed order. -/
def runNormal (today : String) (bodyOk : Stage → Bool) (st : SchedState) : RunLog :=
  [Stage.collect, Stage.process, Stage.generate].foldl (normalStep today bodyOk) ⟨st, [], []⟩

/-- `Scheduler.run` with `force=True` and a valid stage name: execute just that
stage with no date check and no dependency gate. -/
def runForced (today : String) (bodyOk : Stage → Bool) (st : SchedState) (s : Stage) : RunLog :=
  execStage today bodyOk ⟨st, [], []⟩ s

/-! Monotonicity of the recorded-success log over normal-mode steps. -/

theorem execStage_recorded_mono (today : String) (bodyOk : Stage → Bool) (log : RunLog)
    (s x : Stage) (hx : x ∈ log.recorded) : x ∈ (execStage today bodyOk log s).recorded := by
  unfold execStage
  split
  · exact List.mem_append_left _ hx
  · exact hx

theorem normalStep_recorded_mono (today : String) (bodyOk : Stage → Bool) (log : RunLog)
    (s x : Stage) (hx : x ∈ log.recorded) : x ∈ (normalStep today bodyOk log s).recorded := by
  unfold normalStep
  split
  · exact hx
  · split
    · exact hx
    · split
      · exact hx
      · exact execStage_recorded_mono today bodyOk log s x hx

/-- C1 counterexample state: `collect` already carries today's marker from an
earlier run the same day, `process` succeeded only yesterday. -/
def c1State : SchedState :=
  ⟨some "2025-06-02", some "2025-06-01", none⟩

/-- C1 is falsified by `c1State` with every stage body succeeding: at the start
of the run neither `process` nor `generate` carries today's marker, and
`collect` records no success during the run (it is skipped as already done
today), yet the `process` stage body is executed, because the dependency gate
compares `collect`'s stored marker — which already equals today — and passes. -/
theorem c1_counterexample :
    c1State.process ≠ some "2025-06-02" ∧
    c1State.generate ≠ some "2025-06-02" ∧
    Stage.collect ∉ (runNormal "2025-06-02" (fun _ => true) c1State).recorded ∧
    Stage.process ∈ (runNormal "2025-06-02" (fun _ => true) c1State).executed := by
  decide

/-- C1 (amended): in a normal-mode run, if at the start of the run none of
`collect`, `process`, `generate` carries today's date as its success marker and
`collect` does not record success during the run, then the `process` and
`generate` stage bodies are never executed and their success markers remain
unchanged. -/
theorem c1_normal_run_gate (today : String) (bodyOk : Stage → Bool) (st : SchedState)
    (hc : st.collect ≠ some today) (hp : st.process ≠ some today)
    (hg : st.generate ≠ some today)
    (hrec : Stage.collect ∉ (runNormal today bodyOk st).recorded) :
    Stage.process ∉ (runNormal today bodyOk st).executed ∧
    Stage.generate ∉ (runNormal today bodyOk st).executed ∧
    (runNormal today bodyOk st).state.process = st.process ∧
    (runNormal today bodyOk st).state.generate = st.generate := by
  have step1 : normalStep today bodyOk ⟨st, [], []⟩ .collect
      = execStage today bodyOk ⟨st, [], []⟩ .collect := by
    simp only [normalStep, getSuccess]
    rw [if_neg hc, if_neg (by simp), if_neg (by simp)]
  cases hbc : bodyOk .collect with
  | true =>
    exfalso
    apply hrec
    have h1 : Stage.collect ∈ (normalStep today bodyOk ⟨st, [], []⟩ .collect).recorded := by
      rw [step1]
      unfold execStage
      rw [if_pos hbc]
      simp
    have h2 := normalStep_recorded_mono today bodyOk _ .process _ h1
    have h3 := normalStep_recorded_mono today bodyOk _ .generate _ h2
    simpa [runNormal] using h3
  | false =>
    have e1 : normalStep today bodyOk ⟨st, [], []⟩ .collect = ⟨st, [Stage.collect], []⟩ := by
      rw [step1]
      simp [execStage, hbc]
    have e2 : normalStep today bodyOk ⟨st, [Stage.collect], []⟩ .process
        = ⟨st, [Stage.collect], []⟩ := by
      simp [normalStep, getSuccess, hp, hc]
    have e3 : normalStep today bodyOk ⟨st, [Stage.collect], []⟩ .generate
        = ⟨st, [Stage.collect], []⟩ := by
      simp [normalStep, getSuccess, hg, hp]
    have hrun : runNormal today bodyOk st = ⟨st, [Stage.collect], []⟩ := by
      unfold runNormal
      simp only [List.foldl]
      rw [e1, e2, e3]
    rw [hrun]
    refine ⟨by simp, by simp, rfl, rfl⟩

/-- C1 witness: the amended theorem applied to a concrete fresh-day state in
which the `collect` body fails. -/
theorem c1_witness :
    Stage.process ∉ (runNormal "2025-06-02" (fun _ => false)
      ⟨some "2025-06-01", some "2025-06-01", none⟩).executed ∧
    Stage.generate ∉ (runNormal "2025-06-02" (fun _ => false)
      ⟨some "2025-06-01", some "2025-06-01", none⟩).executed ∧
    (runNormal "2025-06-02" (fun _ => false)
      ⟨some "2025-06-01", some "2025-06-01", none⟩).state.process = some "2025-06-01" ∧
    (runNormal "2025-06-02" (fun _ => false)
      ⟨some "2025-06-01", some "2025-06-01", none⟩).state.generate = none :=
  c1_normal_run_gate "2025-06-02" (fun _ => false)
    ⟨some "2025-06-01", some "2025-06-01", none⟩
    (by decide) (by decide) (by decide) (by decide)

/-- C2: a forced run of a single named stage executes that stage's body
unconditionally (no today-check, no dependency gate), records today's date as
its success marker exactly when the body returns without raising, and leaves
the whole stored state unchanged when the body raises. -/
theorem c2_forced_run (today : String) (bodyOk : Stage → Bool) (st : SchedState) (s : Stage) :
    (runForced today bodyOk st s).executed = [s] ∧
    (s ∈ (runForced today bodyOk st s).recorded ↔ bodyOk s = true) ∧
    (bodyOk s = true → getSuccess (runForced today bodyOk st s).state s = some today) ∧
    (bodyOk s = false → (runForced today bodyOk st s).state = st) := by
  unfold runForced execStage
  cases hb : bodyOk s with
  | true =>
    refine ⟨by simp, by simp, fun _ => ?_, fun h => by simp at h⟩
    cases s <;> simp [getSuccess, setSuccess]
  | false =>
    exact ⟨by simp, by simp [hb], fun h => by simp at h, fun _ => by simp⟩

/-- C2 witness: forcing `process` on a day it already ran, with a succeeding
body and then with a raising body. -/
theorem c2_witness :
    ((fun _ => true) Stage.process = true →
      getSuccess (runForced "2025-06-02" (fun _ => true)
        ⟨none, some "2025-06-02", none⟩ .process).state .process = some "2025-06-02") ∧
    ((fun _ => false) Stage.process = false →
      (runForced "2025-06-02" (fun _ => false)
        ⟨none, some "2025-06-02", none⟩ .process).state = ⟨none, some "2025-06-02", none⟩) :=
  ⟨(c2_forced_run "2025-06-02" (fun _ => true)
      ⟨none, some "2025-06-02", none⟩ .process).2.2.1,
   (c2_forced_run "2025-06-02" (fun _ => false)
      ⟨none, some "2025-06-02", none⟩ .process).2.2.2⟩

/-! ## Dedup processor: `processor/deduplicate.py`

`DeduplicateProcessor.process` reads `state.json` (`processed_items_hash`,
`last_run`), resets the hash list when the stored last-run date is not today,
walks `context["updates"]` keeping first fresh occurrences, and persists the
appended and truncated hash list — skipping the persist when nothing was new.
`today` is `format_date(get_now(tz))` and `nowStr` is the formatted `last_run`
timestamp written on persist, both opaque strings here. -/

def MAX_PROCESSED_HASHES : Nat := 50000

structure DedupState where
  processedHashes : List String
  lastRun : String
deriving DecidableEq, Repr

/-- The date part of the stored `last_run`:
`last_run[:10] if isinstance(last_run, str) and len(last_run) >= 10 else ""`. -/
def lastRunDatePart (lastRun : String) : String :=
  if 10 ≤ lastRun.data.length then ⟨lastRun.data.take 10⟩ else ""

/-- The carried-over hash list actually compared against: emptied by the daily
reset when the stored last-run date part is not today. -/
def dedupBase (today : String) (st : DedupState) : List String :=
  if lastRunDatePart st.lastRun ≠ today then [] else st.processedHashes

/-- The per-item pass of `DeduplicateProcessor.process`: items whose extracted
`uid` is falsy are skipped, items whose id is already seen are dropped, fresh
items are kept and their id staged.  Returns `(unique, new_hashes)`. -/
def dedupPass (seen : List String) : List Update → List Update × List String
  | [] => ([], [])
  | u :: rest =>
    if u.id = "" then dedupPass seen rest
    else if u.id ∈ seen then dedupPass seen rest
    else
      let r := dedupPass (u.id :: seen) rest
      (u :: r.1, u.id :: r.2)

structure DedupResult where
  output : List Update
  state : DedupState
  persisted : Bool
deriving DecidableEq, Repr

/-- `DeduplicateProcessor.process`: `state` is the persisted `state.json`
content after the call (unchanged when the persist is skipped). -/
def dedupProcess (today nowStr : String) (st : DedupState) (updates : List Update) :
    DedupResult :=
  let base := dedupBase today st
  let r := dedupPass base updates
  if r.2 = [] then ⟨r.1, st, false⟩
  else ⟨r.1, ⟨pyTail MAX_PROCESSED_HASHES (base ++ r.2), nowStr⟩, true⟩

theorem dedupPass_cons (seen : List String) (u : Update) (rest : List Update) :
    dedupPass seen (u :: rest) =
      if u.id = "" then dedupPass seen rest
      else if u.id ∈ seen then dedupPass seen rest
      else (u :: (dedupPass (u.id :: seen) rest).1,
            u.id :: (dedupPass (u.id :: seen) rest).2) := rfl

theorem dedupProcess_eq (today nowStr : String) (st : DedupState) (updates : List Update) :
    dedupProcess today nowStr st updates =
      if (dedupPass (dedupBase today st) updates).2 = [] then
        ⟨(dedupPass (dedupBase today st) updates).1, st, false⟩
      else
        ⟨(dedupPass (dedupBase today st) updates).1,
         ⟨pyTail MAX_PROCESSED_HASHES
            (dedupBase today st ++ (dedupPass (dedupBase today st) updates).2), nowStr⟩,
         true⟩ := rfl

theorem dedupProcess_output (today nowStr : String) (st : DedupState) (updates : List Update) :
    (dedupProcess today nowStr st updates).output = (dedupPass (dedupBase today st) updates).1 := by
  rw [dedupProcess_eq]
  split <;> rfl

/-- Joint behaviour of the dedup pass, by induction on the input list. -/
theorem dedupPass_spec (seen : List String) (updates : List Update) :
    (dedupPass seen updates).1.Sublist updates ∧
    ((dedupPass seen updates).1.map Update.id).Nodup ∧
    (∀ u ∈ (dedupPass seen updates).1, u.id ≠ "" ∧ u.id ∉ seen) ∧
    (∀ u ∈ updates, u.id ≠ "" → u.id ∉ seen →
      u.id ∈ (dedupPass seen updates).1.map Update.id) ∧
    (dedupPass seen updates).2 = (dedupPass seen updates).1.map Update.id := by
  induction updates generalizing seen with
  | nil =>
    exact ⟨List.Sublist.refl _, List.nodup_nil,
      fun u hu => absurd hu (List.not_mem_nil u),
      fun u hu => absurd hu (List.not_mem_nil u), rfl⟩
  | cons u rest ih =>
    by_cases hid : u.id = ""
    · have hstep : dedupPass seen (u :: rest) = dedupPass seen rest := by
        rw [dedupPass_cons, if_pos hid]
      rw [hstep]
      obtain ⟨ha, hb, hc, hd, he⟩ := ih seen
      refine ⟨ha.cons u, hb, hc, ?_, he⟩
      intro v hv hvne hvseen
      rcases List.mem_cons.mp hv with rfl | hv
      · exact absurd hid hvne
      · exact hd v hv hvne hvseen
    · by_cases hseen : u.id ∈ seen
      · have hstep : dedupPass seen (u :: rest) = dedupPass seen rest := by
          rw [dedupPass_cons, if_neg hid, if_pos hseen]
        rw [hstep]
        obtain ⟨ha, hb, hc, hd, he⟩ := ih seen
        refine ⟨ha.cons u, hb, hc, ?_, he⟩
        intro v hv hvne hvseen
        rcases List.mem_cons.mp hv with rfl | hv
        · exact absurd hseen hvseen
        · exact hd v hv hvne hvseen
      · have hstep : dedupPass seen (u :: rest)
            = (u :: (dedupPass (u.id :: seen) rest).1,
               u.id :: (dedupPass (u.id :: seen) rest).2) := by
          rw [dedupPass_cons, if_neg hid, if_neg hseen]
        rw [hstep]
        obtain ⟨ha, hb, hc, hd, he⟩ := ih (u.id :: seen)
        refine ⟨ha.cons₂ u, ?_, ?_, ?_, ?_⟩
        · refine List.nodup_cons.mpr ⟨?_, hb⟩
          intro hmem
          obtain ⟨v, hv, hvid⟩ := List.mem_map.mp hmem
          exact (hc v hv).2 (hvid ▸ List.mem_cons_self _ _)
        · intro v hv
          rcases List.mem_cons.mp hv with rfl | hv
          · exact ⟨hid, hseen⟩
          · exact ⟨(hc v hv).1, fun hs => (hc v hv).2 (List.mem_cons_of_mem _ hs)⟩
        · intro v hv hvne hvseen
          rcases List.mem_cons.mp hv with rfl | hv
          · simp
          · by_cases hvu : v.id = u.id
            · simp [hvu]
            · have : v.id ∉ u.id :: seen := by
                intro hmem
                rcases List.mem_cons.mp hmem with h | h
                · exact hvu h
                · exact hvseen h
              simpa using Or.inr (hd v hv hvne this)
        · simp [he]

/-- C3: whenever the stored last-run date part is not today, the dedup pass
compares against an emptied carried-over set, so the output is the same as for
an empty fingerprint set — and is independent of whatever fingerprints any
previous day recorded. -/
theorem c3_daily_reset (today nowStr : String) (st : DedupState) (updates : List Update)
    (h : lastRunDatePart st.lastRun ≠ today) :
    (dedupProcess today nowStr st updates).output = (dedupPass [] updates).1 ∧
    ∀ carried : List String,
      (dedupProcess today nowStr ⟨carried, st.lastRun⟩ updates).output
        = (dedupPass [] updates).1 := by
  have hb : ∀ carried : List String, dedupBase today ⟨carried, st.lastRun⟩ = [] := by
    intro carried
    unfold dedupBase
    exact if_pos h
  constructor
  · rw [dedupProcess_output]
    have : dedupBase today st = [] := by
      unfold dedupBase
      exact if_pos h
    rw [this]
  · intro carried
    rw [dedupProcess_output, hb carried]

/-- C3 witness: yesterday's fingerprints contain the sole incoming id, yet the
item survives because the set is reset first. -/
theorem c3_witness :
    (dedupProcess "2025-06-02" "2025-06-02 08:00:00"
        ⟨["idA"], "2025-06-01 09:30:00"⟩
        [⟨"idA", "t", "", "", "", 0, [], "", none⟩]).output
      = (dedupPass [] [⟨"idA", "t", "", "", "", 0, [], "", none⟩]).1 :=
  (c3_daily_reset "2025-06-02" "2025-06-02 08:00:00"
    ⟨["idA"], "2025-06-01 09:30:00"⟩
    [⟨"idA", "t", "", "", "", 0, [], "", none⟩] (by decide)).1

/-- C4 counterexample: an item whose id is missing/empty is dropped by the
pass even though its extracted id is not in the (empty) seen set, so "keeps it
otherwise" fails as stated. -/
theorem c4_counterexample :
    (dedupPass [] [⟨"", "t", "", "", "", 0, [], "", none⟩]).1 = [] ∧
    ("" ∈ ([] : List String) → False) := by
  decide

/-- Every item the pass keeps is the first occurrence of its id in the input:
no earlier input item carries the same id. -/
theorem dedupPass_first_occ (seen : List String) (updates : List Update) :
    ∀ v ∈ (dedupPass seen updates).1, ∃ pre post, updates = pre ++ v :: post ∧
      v.id ∉ pre.map Update.id := by
  induction updates generalizing seen with
  | nil => intro v hv; exact absurd hv (List.not_mem_nil v)
  | cons u rest ih =>
    intro v hv
    by_cases hid : u.id = ""
    · rw [dedupPass_cons, if_pos hid] at hv
      obtain ⟨pre, post, heq, hpre⟩ := ih seen v hv
      refine ⟨u :: pre, post, by rw [List.cons_append, heq], ?_⟩
      intro hmem
      rcases List.mem_cons.mp hmem with h | h
      · exact ((dedupPass_spec seen rest).2.2.1 v hv).1 (h.trans hid)
      · exact hpre h
    · by_cases hseen : u.id ∈ seen
      · rw [dedupPass_cons, if_neg hid, if_pos hseen] at hv
        obtain ⟨pre, post, heq, hpre⟩ := ih seen v hv
        refine ⟨u :: pre, post, by rw [List.cons_append, heq], ?_⟩
        intro hmem
        rcases List.mem_cons.mp hmem with h | h
        · exact ((dedupPass_spec seen rest).2.2.1 v hv).2 (h ▸ hseen)
        · exact hpre h
      · rw [dedupPass_cons, if_neg hid, if_neg hseen] at hv
        rcases List.mem_cons.mp hv with rfl | hv2
        · exact ⟨[], rest, rfl, by simp⟩
        · obtain ⟨pre, post, heq, hpre⟩ := ih (u.id :: seen) v hv2
          refine ⟨u :: pre, post, by rw [List.cons_append, heq], ?_⟩
          intro hmem
          rcases List.mem_cons.mp hmem with h | h
          · exact ((dedupPass_spec (u.id :: seen) rest).2.2.1 v hv2).2
              (h ▸ List.mem_cons_self _ _)
          · exact hpre h

/-- Conversely, an item that is the first input occurrence of an id that is
non-empty and not carried over is kept by the pass. -/
theorem dedupPass_mem_of_first_fresh (pre : List Update) :
    ∀ (seen : List String) (v : Update) (post : List Update), v.id ≠ "" → v.id ∉ seen →
      v.id ∉ pre.map Update.id → v ∈ (dedupPass seen (pre ++ v :: post)).1 := by
  induction pre with
  | nil =>
    intro seen v post hvne hvseen _
    rw [List.nil_append, dedupPass_cons, if_neg hvne, if_neg hvseen]
    exact List.mem_cons_self _ _
  | cons u pre2 ih =>
    intro seen v post hvne hvseen hvpre
    have hvu : v.id ≠ u.id :=
      fun h => hvpre (by rw [List.map_cons, h]; exact List.mem_cons_self _ _)
    have hvpre2 : v.id ∉ pre2.map Update.id :=
      fun h => hvpre (by rw [List.map_cons]; exact List.mem_cons_of_mem _ h)
    rw [List.cons_append, dedupPass_cons]
    by_cases hid : u.id = ""
    · rw [if_pos hid]
      exact ih seen v post hvne hvseen hvpre2
    · by_cases hseen : u.id ∈ seen
      · rw [if_neg hid, if_pos hseen]
        exact ih seen v post hvne hvseen hvpre2
      · rw [if_neg hid, if_neg hseen]
        refine List.mem_cons_of_mem _ (ih (u.id :: seen) v post hvne ?_ hvpre2)
        intro hmem
        rcases List.mem_cons.mp hmem with h | h
        · exact hvu h
        · exact hvseen h

/-- C4 (amended): for every input list and carried-over set, an item carrying a
non-empty id is dropped exactly when its id is already in the seen set —
carried over plus ids of earlier items in the same run — and kept otherwise,
while an item with a missing/empty id is always dropped; the output is a
subsequence of the input preserving relative order and no id occurs twice in
it.  The per-item biconditional is pinned positionally: besides the
subsequence, nodup, freshness and representation conjuncts, every kept item is
the first input occurrence of its id (so any item preceded by a same-id item —
a same-run duplicate — is never the one kept), and every item that is the
first input occurrence of a non-empty id outside the carried-over set is kept. -/
theorem c4_dedup_pass (seen : List String) (updates : List Update) :
    (dedupPass seen updates).1.Sublist updates ∧
    ((dedupPass seen updates).1.map Update.id).Nodup ∧
    (∀ u ∈ (dedupPass seen updates).1, u.id ≠ "" ∧ u.id ∉ seen) ∧
    (∀ u ∈ updates, u.id ≠ "" → u.id ∉ seen →
      u.id ∈ (dedupPass seen updates).1.map Update.id) ∧
    (∀ v ∈ (dedupPass seen updates).1, ∃ pre post, updates = pre ++ v :: post ∧
      v.id ∉ pre.map Update.id) ∧
    (∀ (pre : List Update) (v : Update) (post : List Update),
      updates = pre ++ v :: post → v.id ≠ "" → v.id ∉ seen →
      v.id ∉ pre.map Update.id → v ∈ (dedupPass seen updates).1) :=
  ⟨(dedupPass_spec seen updates).1, (dedupPass_spec seen updates).2.1,
   (dedupPass_spec seen updates).2.2.1, (dedupPass_spec seen updates).2.2.2.1,
   dedupPass_first_occ seen updates,
   fun pre v post heq hne hs hp => by
     rw [heq]
     exact dedupPass_mem_of_first_fresh pre seen v post hne hs hp⟩

/-- C4 witness: the amended statement at a concrete carried-over set and input
with a carried duplicate, a same-run duplicate, an empty id and a fresh item. -/
theorem c4_witness :
    (dedupPass ["a"] [⟨"a", "t1", "", "", "", 0, [], "", none⟩,
        ⟨"b", "t2", "", "", "", 0, [], "", none⟩,
        ⟨"", "t3", "", "", "", 0, [], "", none⟩,
        ⟨"b", "t4", "", "", "", 0, [], "", none⟩]).1.Sublist
      [⟨"a", "t1", "", "", "", 0, [], "", none⟩,
        ⟨"b", "t2", "", "", "", 0, [], "", none⟩,
        ⟨"", "t3", "", "", "", 0, [], "", none⟩,
        ⟨"b", "t4", "", "", "", 0, [], "", none⟩] ∧
    ((dedupPass ["a"] [⟨"a", "t1", "", "", "", 0, [], "", none⟩,
        ⟨"b", "t2", "", "", "", 0, [], "", none⟩,
        ⟨"", "t3", "", "", "", 0, [], "", none⟩,
        ⟨"b", "t4", "", "", "", 0, [], "", none⟩]).1.map Update.id).Nodup ∧
    (∀ u ∈ (dedupPass ["a"] [⟨"a", "t1", "", "", "", 0, [], "", none⟩,
        ⟨"b", "t2", "", "", "", 0, [], "", none⟩,
        ⟨"", "t3", "", "", "", 0, [], "", none⟩,
        ⟨"b", "t4", "", "", "", 0, [], "", none⟩]).1, u.id ≠ "" ∧ u.id ∉ ["a"]) ∧
    (∀ u ∈ [⟨"a", "t1", "", "", "", 0, [], "", none⟩,
        ⟨"b", "t2", "", "", "", 0, [], "", none⟩,
        ⟨"", "t3", "", "", "", 0, [], "", none⟩,
        (⟨"b", "t4", "", "", "", 0, [], "", none⟩ : Update)], u.id ≠ "" → u.id ∉ ["a"] →
      u.id ∈ (dedupPass ["a"] [⟨"a", "t1", "", "", "", 0, [], "", none⟩,
        ⟨"b", "t2", "", "", "", 0, [], "", none⟩,
        ⟨"", "t3", "", "", "", 0, [], "", none⟩,
        ⟨"b", "t4", "", "", "", 0, [], "", none⟩]).1.map Update.id) ∧
    (∀ v ∈ (dedupPass ["a"] [⟨"a", "t1", "", "", "", 0, [], "", none⟩,
        ⟨"b", "t2", "", "", "", 0, [], "", none⟩,
        ⟨"", "t3", "", "", "", 0, [], "", none⟩,
        ⟨"b", "t4", "", "", "", 0, [], "", none⟩]).1,
      ∃ pre post, [⟨"a", "t1", "", "", "", 0, [], "", none⟩,
        ⟨"b", "t2", "", "", "", 0, [], "", none⟩,
        ⟨"", "t3", "", "", "", 0, [], "", none⟩,
        (⟨"b", "t4", "", "", "", 0, [], "", none⟩ : Update)] = pre ++ v :: post ∧
        v.id ∉ pre.map Update.id) ∧
    (∀ (pre : List Update) (v : Update) (post : List Update),
      [⟨"a", "t1", "", "", "", 0, [], "", none⟩,
        ⟨"b", "t2", "", "", "", 0, [], "", none⟩,
        ⟨"", "t3", "", "", "", 0, [], "", none⟩,
        (⟨"b", "t4", "", "", "", 0, [], "", none⟩ : Update)] = pre ++ v :: post →
      v.id ≠ "" → v.id ∉ ["a"] → v.id ∉ pre.map Update.id →
      v ∈ (dedupPass ["a"] [⟨"a", "t1", "", "", "", 0, [], "", none⟩,
        ⟨"b", "t2", "", "", "", 0, [], "", none⟩,
        ⟨"", "t3", "", "", "", 0, [], "", none⟩,
        ⟨"b", "t4", "", "", "", 0, [], "", none⟩]).1) :=
  c4_dedup_pass ["a"] [⟨"a", "t1", "", "", "", 0, [], "", none⟩,
    ⟨"b", "t2", "", "", "", 0, [], "", none⟩,
    ⟨"", "t3", "", "", "", 0, [], "", none⟩,
    ⟨"b", "t4", "", "", "", 0, [], "", none⟩]

theorem pyTail_length (n : Nat) (l : List α) :
    (pyTail n l).length = l.length - (l.length - n) := by
  simp [pyTail]

/-- C5: whenever the dedup invocation persists state, the stored fingerprint
list has at most 50,000 entries; it is a suffix of the appended list (so any
eviction removes oldest-appended ids first), and when the appended list would
exceed the cap exactly the 50,000 most recently appended ids are kept. -/
theorem c5_fingerprint_cap (today nowStr : String) (st : DedupState) (updates : List Update)
    (h : (dedupProcess today nowStr st updates).persisted = true) :
    (dedupProcess today nowStr st updates).state.processedHashes.length
        ≤ MAX_PROCESSED_HASHES ∧
    List.IsSuffix (dedupProcess today nowStr st updates).state.processedHashes
      (dedupBase today st ++ (dedupPass (dedupBase today st) updates).2) ∧
    (MAX_PROCESSED_HASHES
        < (dedupBase today st ++ (dedupPass (dedupBase today st) updates).2).length →
      (dedupProcess today nowStr st updates).state.processedHashes.length
        = MAX_PROCESSED_HASHES) := by
  by_cases hr : (dedupPass (dedupBase today st) updates).2 = []
  · exfalso
    have : (dedupProcess today nowStr st updates).persisted = false := by
      rw [dedupProcess_eq, if_pos hr]
    rw [this] at h
    exact Bool.false_ne_true h
  · have hstate : (dedupProcess today nowStr st updates).state.processedHashes
        = pyTail MAX_PROCESSED_HASHES
            (dedupBase today st ++ (dedupPass (dedupBase today st) updates).2) := by
      rw [dedupProcess_eq, if_neg hr]
    rw [hstate]
    refine ⟨?_, ?_, ?_⟩
    · rw [pyTail_length]
      omega
    · exact List.drop_suffix _ _
    · intro hgt
      rw [pyTail_length]
      omega

/-- C5 witness: a reset state with one fresh id persists a one-element list,
discharging the persisted hypothesis concretely. -/
theorem c5_witness :
    (dedupProcess "2025-06-02" "2025-06-02 08:00:00" ⟨[], ""⟩
        [⟨"a", "t", "", "", "", 0, [], "", none⟩]).state.processedHashes.length
        ≤ MAX_PROCESSED_HASHES ∧
    List.IsSuffix (dedupProcess "2025-06-02" "2025-06-02 08:00:00" ⟨[], ""⟩
        [⟨"a", "t", "", "", "", 0, [], "", none⟩]).state.processedHashes
      (dedupBase "2025-06-02" ⟨[], ""⟩ ++
        (dedupPass (dedupBase "2025-06-02" ⟨[], ""⟩)
          [⟨"a", "t", "", "", "", 0, [], "", none⟩]).2) ∧
    (MAX_PROCESSED_HASHES < (dedupBase "2025-06-02" ⟨[], ""⟩ ++
        (dedupPass (dedupBase "2025-06-02" ⟨[], ""⟩)
          [⟨"a", "t", "", "", "", 0, [], "", none⟩]).2).length →
      (dedupProcess "2025-06-02" "2025-06-02 08:00:00" ⟨[], ""⟩
        [⟨"a", "t", "", "", "", 0, [], "", none⟩]).state.processedHashes.length
        = MAX_PROCESSED_HASHES) :=
  c5_fingerprint_cap "2025-06-02" "2025-06-02 08:00:00" ⟨[], ""⟩
    [⟨"a", "t", "", "", "", 0, [], "", none⟩] (by decide)

/-- C10: an item whose id is missing/`None`/empty never reaches the dedup
output, and no empty id is staged into the newly-seen hashes. -/
theorem c10_missing_id (today nowStr : String) (st : DedupState) (updates : List Update) :
    (∀ u ∈ (dedupProcess today nowStr st updates).output, u.id ≠ "") ∧
    "" ∉ (dedupPass (dedupBase today st) updates).2 := by
  obtain ⟨-, -, hc, -, he⟩ := dedupPass_spec (dedupBase today st) updates
  constructor
  · intro u hu
    rw [dedupProcess_output] at hu
    exact (hc u hu).1
  · rw [he]
    intro hmem
    obtain ⟨v, hv, hvid⟩ := List.mem_map.mp hmem
    exact (hc v hv).1 hvid

/-- C10 witness: concrete instance with an empty-id item in the input. -/
theorem c10_witness :
    (∀ u ∈ (dedupProcess "2025-06-02" "2025-06-02 08:00:00" ⟨[], ""⟩
        [⟨"", "t", "", "", "", 0, [], "", none⟩,
         ⟨"a", "t2", "", "", "", 0, [], "", none⟩]).output, u.id ≠ "") ∧
    "" ∉ (dedupPass (dedupBase "2025-06-02" ⟨[], ""⟩)
        [⟨"", "t", "", "", "", 0, [], "", none⟩,
         ⟨"a", "t2", "", "", "", 0, [], "", none⟩]).2 :=
  c10_missing_id "2025-06-02" "2025-06-02 08:00:00" ⟨[], ""⟩
    [⟨"", "t", "", "", "", 0, [], "", none⟩,
     ⟨"a", "t2", "", "", "", 0, [], "", none⟩]

/-! ## Scoring processor: `processor/scoring.py`

`ScoringProcessor._compute_score` adds a keyword component, a trending
component from `stars_today` and a recency component.  The composition
`parse_published_at` + `hours_ago` on the publish timestamp is the oracle
`parseHours` (`none` = unparseable); floats are idealised as `ℚ`. -/

structure ScoringCfg where
  keywords : List String
  keywordWeight : ℚ
  trendingWeight : ℚ
  recencyWeight : ℚ

/-- `sum(1 for k in self.keywords if k and (k in title)) * keyword_weight`. -/
def keywordScore (cfg : ScoringCfg) (title : String) : ℚ :=
  ((cfg.keywords.filter fun k => !(k == "") && strContains title k).length : ℚ)
    * cfg.keywordWeight

/-- Trending component: `min(stars_today / 100.0, 10.0) * trending_weight`
when a positive trend metric is present, else `0`. -/
def trendingScore (tw : ℚ) (starsToday : Option ℚ) : ℚ :=
  match starsToday with
  | some s => if 0 < s then min (s / 100) 10 * tw else 0
  | none => 0

/-- Recency component: linear decay `max(0, (24 - h) / 24 * 10)` times the
weight when the timestamp parses to `h` hours ago, else the neutral `5`
times the weight. -/
def recencyScore (w : ℚ) (hoursAgo : Option ℚ) : ℚ :=
  match hoursAgo with
  | some h => max 0 ((24 - h) / 24 * 10) * w
  | none => 5 * w

/-- `ScoringProcessor._compute_score`. -/
def computeScore (cfg : ScoringCfg) (parseHours : String → Option ℚ) (u : Update) : ℚ :=
  keywordScore cfg u.title
    + trendingScore cfg.trendingWeight u.starsToday
    + recencyScore cfg.recencyWeight
        (if u.publishedAt = "" then none else parseHours u.publishedAt)

/-- Claim C6's literal score formula: its keyword component counts every
configured keyword occurring as a literal substring of the title — including
an empty configured keyword, which is a substring of every title. -/
def claimScoreC6 (cfg : ScoringCfg) (parseHours : String → Option ℚ) (u : Update) : ℚ :=
  ((cfg.keywords.filter fun k => strContains u.title k).length : ℚ) * cfg.keywordWeight
    + trendingScore cfg.trendingWeight u.starsToday
    + recencyScore cfg.recencyWeight
        (if u.publishedAt = "" then none else parseHours u.publishedAt)

/-- The amended score formula, keyword component restricted to non-empty
configured keywords. -/
def specScoreC6 (cfg : ScoringCfg) (parseHours : String → Option ℚ) (u : Update) : ℚ :=
  ((cfg.keywords.filter fun k => !(k == "") && strContains u.title k).length : ℚ)
      * cfg.keywordWeight
    + trendingScore cfg.trendingWeight u.starsToday
    + recencyScore cfg.recencyWeight
        (if u.publishedAt = "" then none else parseHours u.publishedAt)

/-- C6 counterexample: with the single configured keyword `""` (a literal
substring of any title) and weights `(1, 2, 1)`, the code scores the item `5`
(no keyword counted, unparseable date) while the claim's formula yields `6`. -/
theorem c6_counterexample :
    computeScore ⟨[""], 1, 2, 1⟩ (fun _ => none) ⟨"i", "a", "", "", "", 0, [], "", none⟩
      ≠ claimScoreC6 ⟨[""], 1, 2, 1⟩ (fun _ => none)
          ⟨"i", "a", "", "", "", 0, [], "", none⟩ := by
  have h1 : computeScore ⟨[""], 1, 2, 1⟩ (fun _ => none)
      ⟨"i", "a", "", "", "", 0, [], "", none⟩ = 5 := by
    norm_num [computeScore, keywordScore, trendingScore, recencyScore,
      strContains, containsSeq, leadsList]
  have h2 : claimScoreC6 ⟨[""], 1, 2, 1⟩ (fun _ => none)
      ⟨"i", "a", "", "", "", 0, [], "", none⟩ = 6 := by
    norm_num [claimScoreC6, trendingScore, recencyScore,
      strContains, containsSeq, leadsList]
  rw [h1, h2]
  norm_num

/-- C6 (amended): the computed score is exactly
`keyword_score + trending_score + recency_score` with the keyword component
counting non-empty configured keywords occurring as substrings of the title;
moreover trend-metric 300 with trending weight 2 gives trending score 6, an
item published now gets recency score `10 × recency_weight`, and an item
published 24 hours ago or more gets recency score 0. -/
theorem c6_score_formula (w h : ℚ) (hge : 24 ≤ h) :
    (∀ (cfg : ScoringCfg) (parseHours : String → Option ℚ) (u : Update),
      computeScore cfg parseHours u = specScoreC6 cfg parseHours u) ∧
    trendingScore 2 (some 300) = 6 ∧
    (∀ w0 : ℚ, recencyScore w0 (some 0) = 10 * w0) ∧
    recencyScore w (some h) = 0 := by
  refine ⟨fun cfg parseHours u => rfl, ?_, ?_, ?_⟩
  · show (if (0:ℚ) < 300 then min ((300:ℚ) / 100) 10 * 2 else 0) = 6
    norm_num
  · intro w0
    show max 0 (((24:ℚ) - 0) / 24 * 10) * w0 = 10 * w0
    norm_num
  · show max 0 (((24:ℚ) - h) / 24 * 10) * w = 0
    have hx : ((24:ℚ) - h) / 24 * 10 ≤ 0 := by linarith
    rw [max_eq_left hx, zero_mul]

/-- C6 witness: the amended formula instantiated at recency weight 1 and an
item 24 hours old. -/
theorem c6_witness :
    (24:ℚ) ≤ 24 ∧
    ((∀ (cfg : ScoringCfg) (parseHours : String → Option ℚ) (u : Update),
      computeScore cfg parseHours u = specScoreC6 cfg parseHours u) ∧
    trendingScore 2 (some 300) = 6 ∧
    (∀ w0 : ℚ, recencyScore w0 (some 0) = 10 * w0) ∧
    recencyScore 1 (some 24) = 0) :=
  ⟨le_refl 24, c6_score_formula 1 24 (le_refl 24)⟩

/-! ## Filtering processor: `processor/filtering.py`

Day-window filtering (date subtraction on parsed timestamps abstracted as the
oracle `parseDays`, `none` = unparseable, fail-open kept), then either simple
top-N or quota mode.  Python's stable `sort(key=score, reverse=True)` is
insertion sort by the reflexive-descending relation `scoreGE`, which places an
element before the first strictly-smaller-scored one and therefore keeps the
relative order of equal scores, exactly like CPython's stable reverse sort. -/

inductive Bucket where
  | arxivRss
  | github
  | other
deriving DecidableEq, Repr

/-- `_source_bucket`: classify an update as `arxiv_rss` / `github` / `other`
from lower-cased source, url and tags. -/
def sourceBucket (u : Update) : Bucket :=
  let src := lcData u.source
  let url := lcData u.url
  let tagsL := u.tags.map lcData
  if containsSeq "arxiv".data src || tagsL.contains "arxiv".data
      || containsSeq "arxiv.org".data url then .arxivRss
  else if (tagsL.contains "blog".data || tagsL.contains "research".data)
      && (!containsSeq "github.com".data url && !tagsL.contains "trending".data) then .arxivRss
  else if containsSeq "github".data src || containsSeq "github.com".data url
      || tagsL.contains "trending".data then .github
  else .other

/-- The day-window predicate: keep unparseable / missing dates (fail-open),
keep when `days_ago <= days_window`. -/
def withinWindow (parseDays : String → Option Int) (daysWindow : Int) (u : Update) : Bool :=
  if u.publishedAt = "" then true
  else
    match parseDays u.publishedAt with
    | none => true
    | some d => decide (d ≤ daysWindow)

structure FilterCfg where
  topN : Nat
  daysWindow : Int
  quotaArxiv : Option Int
  quotaGithub : Option Int

/-- Python's stable descending sort by score. -/
def scoreGE (a b : Update) : Prop := b.score ≤ a.score

instance : DecidableRel scoreGE :=
  fun a b => inferInstanceAs (Decidable (b.score ≤ a.score))

instance : IsTotal Update scoreGE := ⟨fun a b => le_total b.score a.score⟩

instance : IsTrans Update scoreGE := ⟨fun _ _ _ hab hbc => le_trans hbc hab⟩

def sortByScoreDesc (l : List Update) : List Update := List.insertionSort scoreGE l

/-- `FilteringProcessor.process`: day-window filter, then quota mode when both
quotas are configured (take quota-A from the arxiv/RSS bucket and quota-B from
the GitHub bucket, drop `other`, re-sort), else simple top-N. -/
def filterProcess (cfg : FilterCfg) (parseDays : String → Option Int)
    (updates : List Update) : List Update :=
  let ww := updates.filter (withinWindow parseDays cfg.daysWindow)
  match cfg.quotaArxiv, cfg.quotaGithub with
  | some qa, some qg =>
    let bA := ww.filter fun u => sourceBucket u == Bucket.arxivRss
    let bB := ww.filter fun u => sourceBucket u == Bucket.github
    let sel := (sortByScoreDesc bA).take (max 0 qa).toNat
        ++ (sortByScoreDesc bB).take (max 0 qg).toNat
    sortByScoreDesc sel
  | _, _ => (sortByScoreDesc ww).take cfg.topN

/-- Taking `q` from the descending sort of a distinct-score list keeps `q`
top-scored elements: every untaken element scores strictly below every taken
one. -/
theorem take_sorted_top (l : List Update) (q : Nat)
    (hd : l.Pairwise fun a b => a.score ≠ b.score) :
    ((sortByScoreDesc l).take q).length = min q l.length ∧
    (∀ u ∈ (sortByScoreDesc l).take q, u ∈ l) ∧
    List.Sorted scoreGE ((sortByScoreDesc l).take q) ∧
    (∀ u ∈ l, u ∉ (sortByScoreDesc l).take q →
      ∀ v ∈ (sortByScoreDesc l).take q, u.score < v.score) := by
  have hperm : (sortByScoreDesc l).Perm l := List.perm_insertionSort _ l
  have hsort : List.Sorted scoreGE (sortByScoreDesc l) := List.sorted_insertionSort _ l
  have hlen : (sortByScoreDesc l).length = l.length := hperm.length_eq
  have hne : (sortByScoreDesc l).Pairwise (fun a b => a.score ≠ b.score) :=
    (List.Perm.pairwise_iff (fun h => Ne.symm h) hperm).mpr hd
  refine ⟨?_, ?_, ?_, ?_⟩
  · rw [List.length_take, hlen]
  · intro u hu
    exact hperm.mem_iff.mp ((List.take_sublist q _).subset hu)
  · exact List.Pairwise.sublist (List.take_sublist q _) hsort
  · intro u hul hunot v hv
    have hus : u ∈ sortByScoreDesc l := hperm.mem_iff.mpr hul
    have hsplit := List.take_append_drop q (sortByScoreDesc l)
    have hudrop : u ∈ (sortByScoreDesc l).drop q := by
      rcases List.mem_append.mp (by rw [hsplit]; exact hus) with h | h
      · exact absurd h hunot
      · exact h
    have hsortApp : List.Pairwise scoreGE
        ((sortByScoreDesc l).take q ++ (sortByScoreDesc l).drop q) := by
      rw [hsplit]; exact hsort
    have hneApp : List.Pairwise (fun a b => a.score ≠ b.score)
        ((sortByScoreDesc l).take q ++ (sortByScoreDesc l).drop q) := by
      rw [hsplit]; exact hne
    have hle : u.score ≤ v.score := (List.pairwise_append.mp hsortApp).2.2 v hv u hudrop
    have hvu : v.score ≠ u.score := (List.pairwise_append.mp hneApp).2.2 v hv u hudrop
    exact lt_of_le_of_ne hle (Ne.symm hvu)

/-- C7: in quota mode with quotas (5, 4), on an input inside the day window
with ten arxiv/RSS-bucket items, ten GitHub-bucket items and pairwise distinct
scores, the output is exactly the five highest-scored arxiv/RSS items plus the
four highest-scored GitHub items, merged and sorted by score descending, and
contains nothing from the `other` bucket. -/
theorem c7_quota_selection (topN : Nat) (dw : Int) (pd : String → Option Int)
    (updates out : List Update)
    (hout : out = filterProcess ⟨topN, dw, some 5, some 4⟩ pd updates)
    (hwin : ∀ u ∈ updates, withinWindow pd dw u = true)
    (hA : (updates.filter fun u => sourceBucket u == Bucket.arxivRss).length = 10)
    (hB : (updates.filter fun u => sourceBucket u == Bucket.github).length = 10)
    (hdist : updates.Pairwise fun a b => a.score ≠ b.score) :
    out.length = 9 ∧
    (out.filter fun u => sourceBucket u == Bucket.arxivRss).length = 5 ∧
    (out.filter fun u => sourceBucket u == Bucket.github).length = 4 ∧
    (∀ u ∈ out, sourceBucket u ≠ Bucket.other) ∧
    (∀ u ∈ out, u ∈ updates) ∧
    List.Sorted scoreGE out ∧
    (∀ u ∈ updates, sourceBucket u = Bucket.arxivRss → u ∉ out →
      ∀ v ∈ out, sourceBucket v = Bucket.arxivRss → u.score < v.score) ∧
    (∀ u ∈ updates, sourceBucket u = Bucket.github → u ∉ out →
      ∀ v ∈ out, sourceBucket v = Bucket.github → u.score < v.score) := by
  have hww : updates.filter (withinWindow pd dw) = updates := List.filter_eq_self.mpr hwin
  have hout2 : out = sortByScoreDesc
      ((sortByScoreDesc (updates.filter fun u => sourceBucket u == Bucket.arxivRss)).take 5
        ++ (sortByScoreDesc (updates.filter fun u => sourceBucket u == Bucket.github)).take 4) := by
    rw [hout]
    show filterProcess _ _ _ = _
    unfold filterProcess
    rw [hww]
    rfl
  obtain ⟨lenA, memA, -, crossA⟩ :=
    take_sorted_top (updates.filter fun u => sourceBucket u == Bucket.arxivRss) 5
      (List.Pairwise.sublist (List.filter_sublist _) hdist)
  obtain ⟨lenB, memB, -, crossB⟩ :=
    take_sorted_top (updates.filter fun u => sourceBucket u == Bucket.github) 4
      (List.Pairwise.sublist (List.filter_sublist _) hdist)
  have lenA5 : ((sortByScoreDesc
      (updates.filter fun u => sourceBucket u == Bucket.arxivRss)).take 5).length = 5 := by
    rw [lenA, hA]
    decide
  have lenB4 : ((sortByScoreDesc
      (updates.filter fun u => sourceBucket u == Bucket.github)).take 4).length = 4 := by
    rw [lenB, hB]
    decide
  have hpermOut : out.Perm
      ((sortByScoreDesc (updates.filter fun u => sourceBucket u == Bucket.arxivRss)).take 5
        ++ (sortByScoreDesc (updates.filter fun u => sourceBucket u == Bucket.github)).take 4) := by
    rw [hout2]
    exact List.perm_insertionSort _ _
  have hselA : ∀ u ∈ (sortByScoreDesc
      (updates.filter fun u => sourceBucket u == Bucket.arxivRss)).take 5,
      u ∈ updates ∧ sourceBucket u = Bucket.arxivRss := by
    intro u hu
    have := List.mem_filter.mp (memA u hu)
    exact ⟨this.1, by simpa using this.2⟩
  have hselB : ∀ u ∈ (sortByScoreDesc
      (updates.filter fun u => sourceBucket u == Bucket.github)).take 4,
      u ∈ updates ∧ sourceBucket u = Bucket.github := by
    intro u hu
    have := List.mem_filter.mp (memB u hu)
    exact ⟨this.1, by simpa using this.2⟩
  refine ⟨?_, ?_, ?_, ?_, ?_, ?_, ?_, ?_⟩
  · rw [hpermOut.length_eq, List.length_append, lenA5, lenB4]
  · have hfa : (out.filter fun u => sourceBucket u == Bucket.arxivRss).length
        = ((((sortByScoreDesc (updates.filter fun u => sourceBucket u == Bucket.arxivRss)).take 5).filter
            fun u => sourceBucket u == Bucket.arxivRss)
          ++ (((sortByScoreDesc (updates.filter fun u => sourceBucket u == Bucket.github)).take 4).filter
            fun u => sourceBucket u == Bucket.arxivRss)).length := by
      rw [← List.filter_append]
      exact (hpermOut.filter _).length_eq
    rw [hfa, List.length_append]
    have h1 : (((sortByScoreDesc (updates.filter fun u => sourceBucket u == Bucket.arxivRss)).take 5).filter
        fun u => sourceBucket u == Bucket.arxivRss)
        = (sortByScoreDesc (updates.filter fun u => sourceBucket u == Bucket.arxivRss)).take 5 :=
      List.filter_eq_self.mpr fun u hu => by simp [(hselA u hu).2]
    have h2 : (((sortByScoreDesc (updates.filter fun u => sourceBucket u == Bucket.github)).take 4).filter
        fun u => sourceBucket u == Bucket.arxivRss) = [] :=
      List.filter_eq_nil_iff.mpr fun u hu => by simp [(hselB u hu).2]
    rw [h1, h2, lenA5]
    rfl
  · have hfb : (out.filter fun u => sourceBucket u == Bucket.github).length
        = ((((sortByScoreDesc (updates.filter fun u => sourceBucket u == Bucket.arxivRss)).take 5).filter
            fun u => sourceBucket u == Bucket.github)
          ++ (((sortByScoreDesc (updates.filter fun u => sourceBucket u == Bucket.github)).take 4).filter
            fun u => sourceBucket u == Bucket.github)).length := by
      rw [← List.filter_append]
      exact (hpermOut.filter _).length_eq
    rw [hfb, List.length_append]
    have h1 : (((sortByScoreDesc (updates.filter fun u => sourceBucket u == Bucket.arxivRss)).take 5).filter
        fun u => sourceBucket u == Bucket.github) = [] :=
      List.filter_eq_nil_iff.mpr fun u hu => by simp [(hselA u hu).2]
    have h2 : (((sortByScoreDesc (updates.filter fun u => sourceBucket u == Bucket.github)).take 4).filter
        fun u => sourceBucket u == Bucket.github)
        = (sortByScoreDesc (updates.filter fun u => sourceBucket u == Bucket.github)).take 4 :=
      List.filter_eq_self.mpr fun u hu => by simp [(hselB u hu).2]
    rw [h1, h2, lenB4]
    rfl
  · intro u hu
    rcases List.mem_append.mp (hpermOut.mem_iff.mp hu) with h | h
    · rw [(hselA u h).2]
      exact fun hcontra => Bucket.noConfusion hcontra
    · rw [(hselB u h).2]
      exact fun hcontra => Bucket.noConfusion hcontra
  · intro u hu
    rcases List.mem_append.mp (hpermOut.mem_iff.mp hu) with h | h
    · exact (hselA u h).1
    · exact (hselB u h).1
  · rw [hout2]
    exact List.sorted_insertionSort _ _
  · intro u hu hbu hunot v hv hbv
    have huA : u ∈ updates.filter fun u => sourceBucket u == Bucket.arxivRss :=
      List.mem_filter.mpr ⟨hu, by simp [hbu]⟩
    have hunotA : u ∉ (sortByScoreDesc
        (updates.filter fun u => sourceBucket u == Bucket.arxivRss)).take 5 :=
      fun h => hunot (hpermOut.mem_iff.mpr (List.mem_append_left _ h))
    rcases List.mem_append.mp (hpermOut.mem_iff.mp hv) with h | h
    · exact crossA u huA hunotA v h
    · exfalso
      have hg := (hselB v h).2
      rw [hbv] at hg
      exact Bucket.noConfusion hg
  · intro u hu hbu hunot v hv hbv
    have huB : u ∈ updates.filter fun u => sourceBucket u == Bucket.github :=
      List.mem_filter.mpr ⟨hu, by simp [hbu]⟩
    have hunotB : u ∉ (sortByScoreDesc
        (updates.filter fun u => sourceBucket u == Bucket.github)).take 4 :=
      fun h => hunot (hpermOut.mem_iff.mpr (List.mem_append_right _ h))
    rcases List.mem_append.mp (hpermOut.mem_iff.mp hv) with h | h
    · exfalso
      have hg := (hselA v h).2
      rw [hbv] at hg
      exact Bucket.noConfusion hg
    · exact crossB u huB hunotB v h

/-- Concrete quota-mode input: ten arxiv-bucket and ten github-bucket items
with pairwise distinct scores. -/
def c7Items : List Update :=
  [⟨"a1", "", "", "arxiv", "", 20, [], "", none⟩,
   ⟨"a2", "", "", "arxiv", "", 19, [], "", none⟩,
   ⟨"a3", "", "", "arxiv", "", 18, [], "", none⟩,
   ⟨"a4", "", "", "arxiv", "", 17, [], "", none⟩,
   ⟨"a5", "", "", "arxiv", "", 16, [], "", none⟩,
   ⟨"a6", "", "", "arxiv", "", 15, [], "", none⟩,
   ⟨"a7", "", "", "arxiv", "", 14, [], "", none⟩,
   ⟨"a8", "", "", "arxiv", "", 13, [], "", none⟩,
   ⟨"a9", "", "", "arxiv", "", 12, [], "", none⟩,
   ⟨"a10", "", "", "arxiv", "", 11, [], "", none⟩,
   ⟨"b1", "", "", "github", "", 10, [], "", none⟩,
   ⟨"b2", "", "", "github", "", 9, [], "", none⟩,
   ⟨"b3", "", "", "github", "", 8, [], "", none⟩,
   ⟨"b4", "", "", "github", "", 7, [], "", none⟩,
   ⟨"b5", "", "", "github", "", 6, [], "", none⟩,
   ⟨"b6", "", "", "github", "", 5, [], "", none⟩,
   ⟨"b7", "", "", "github", "", 4, [], "", none⟩,
   ⟨"b8", "", "", "github", "", 3, [], "", none⟩,
   ⟨"b9", "", "", "github", "", 2, [], "", none⟩,
   ⟨"b10", "", "", "github", "", 1, [], "", none⟩]

/-- The filtering output on `c7Items` under quotas (5, 4). -/
def c7Out : List Update :=
  filterProcess ⟨5, 7, some 5, some 4⟩ (fun _ => none) c7Items

/-- C7 witness: the quota-selection theorem applied to `c7Items`, with every
hypothesis discharged by evaluation. -/
theorem c7_witness :
    c7Out.length = 9 ∧
    (c7Out.filter fun u => sourceBucket u == Bucket.arxivRss).length = 5 ∧
    (c7Out.filter fun u => sourceBucket u == Bucket.github).length = 4 ∧
    (∀ u ∈ c7Out, sourceBucket u ≠ Bucket.other) ∧
    (∀ u ∈ c7Out, u ∈ c7Items) ∧
    List.Sorted scoreGE c7Out ∧
    (∀ u ∈ c7Items, sourceBucket u = Bucket.arxivRss → u ∉ c7Out →
      ∀ v ∈ c7Out, sourceBucket v = Bucket.arxivRss → u.score < v.score) ∧
    (∀ u ∈ c7Items, sourceBucket u = Bucket.github → u ∉ c7Out →
      ∀ v ∈ c7Out, sourceBucket v = Bucket.github → u.score < v.score) :=
  c7_quota_selection 5 7 (fun _ => none) c7Items c7Out rfl
    (by decide) (by decide) (by decide) (by decide)

/-! ## Signal model: `models/signal.py`

`Signal.from_update` plus the two tag/source/url inference heuristics, as used
by `build_signals_from_context` inside the daily-report generator. -/

structure Signal where
  id : String
  type : String
  source : String
  title : String
  summary : String
  url : String
  publishedAt : String
  topics : List String
  score : ℚ
  metricsStars : Option ℚ
deriving DecidableEq, Repr

/-- `_infer_type_from_update`. -/
def inferTypeFromUpdate (tags : List String) (source url : String) : String :=
  let tagsLower := tags.map lcData
  let srcLower := lcData source
  let urlLower := lcData url
  if tagsLower.contains "arxiv".data || tagsLower.contains "paper".data
      || containsSeq "cs.".data srcLower then "paper"
  else if tagsLower.contains "blog".data || tagsLower.contains "research".data then "blog"
  else if tagsLower.contains "trending".data || containsSeq "github".data srcLower
      || containsSeq "github.com".data urlLower then "code"
  else "other"

/-- `_infer_source_from_update`. -/
def inferSourceFromUpdate (tags : List String) (source url : String) : String :=
  let tagsLower := tags.map lcData
  let srcLower := lcData source
  let urlLower := lcData url
  if containsSeq "github.com".data urlLower || containsSeq "github".data srcLower then "github"
  else if tagsLower.contains "arxiv".data || containsSeq "arxiv.org".data urlLower then "arxiv"
  else if tagsLower.contains "blog".data || tagsLower.contains "research".data then "rss"
  else "other"

/-- The topics accumulation of `Signal.from_update`: append each truthy tag not
already present, preserving order. -/
def addTopics (acc : List String) : List String → List String
  | [] => acc
  | t :: rest => if t ≠ "" ∧ t ∉ acc then addTopics (acc ++ [t]) rest else addTopics acc rest

/-- `Signal.from_update` with no hints, as called on an `Update` record. -/
def signalFromUpdate (u : Update) : Signal :=
  { id := u.id
    type := pyOr (inferTypeFromUpdate u.tags u.source u.url) "other"
    source := pyOr (inferSourceFromUpdate u.tags u.source u.url) "other"
    title := pyOr u.title (pyOr u.url u.id)
    summary := u.summary
    url := u.url
    publishedAt := u.publishedAt
    topics := addTopics [] u.tags
    score := u.score
    metricsStars := u.starsToday }

/-! ## Daily report generator: `generator/daily_report.py`

`DailyReportGenerator.generate` over the working list.  External boundaries
become parameters: `videoSignals` is the result of `_load_video_signals`
(`videos.json`), `apiContent` the `chat_completion` return value (`""` for the
missing / rate-limited / no-API-key cases, which Python treats as falsy), and
`genId` the `generate_id` hash used for report ids.  `reports0` is the parsed
`reports.json` collection; the result carries the persisted collection, whether
the LLM API was reached, and whether the stage raised. -/

structure Report where
  id : String
  date : String
  content : String
  generatedAt : String
deriving DecidableEq, Repr

/-- The signal merge in `generate`: keep signals with a non-empty id not seen
before, in order. -/
def combineSignals (seen : List String) : List Signal → List Signal
  | [] => []
  | s :: rest =>
    if s.id = "" ∨ s.id ∈ seen then combineSignals seen rest
    else s :: combineSignals (s.id :: seen) rest

/-- `_append_report`: note Python's `generate_id(date_str + content or fallback)`
parses as `(date_str + content) or fallback`. -/
def appendReport (genId : String → String) (dateStr nowStr : String)
    (reports0 : List Report) (content fallback : String) : List Report :=
  reports0 ++ [⟨genId (pyOr (dateStr ++ content) fallback), dateStr,
    pyOr content fallback, nowStr⟩]

structure GenResult where
  apiCalled : Bool
  raised : Bool
  reports : List Report
deriving DecidableEq, Repr

/-- `DailyReportGenerator.generate`. -/
def generateRun (topN : Nat) (videoSignals : List Signal) (apiContent : String)
    (genId : String → String) (dateStr nowStr : String)
    (reports0 : List Report) (updates : List Update) : GenResult :=
  if updates = [] then
    ⟨false, false, appendReport genId dateStr nowStr reports0 "" "今日无更新数据。"⟩
  else if combineSignals []
      ((updates.map signalFromUpdate).take topN ++ videoSignals) = [] then
    ⟨false, false, appendReport genId dateStr nowStr reports0 "" "今日无更新数据（无有效信号）。"⟩
  else if apiContent = "" then
    ⟨true, true, reports0⟩
  else
    ⟨true, false, appendReport genId dateStr nowStr reports0 apiContent ""⟩

/-- C8: on a non-empty working list whose signal merge is non-empty, a falsy
report-API response makes `generate` raise before any append: the persisted
reports collection is unchanged and the scheduler leaves the `generate`
success marker untouched. -/
theorem c8_generation_failure (topN : Nat) (videoSignals : List Signal)
    (genId : String → String) (today dateStr nowStr : String)
    (reports0 : List Report) (updates : List Update)
    (hne : updates ≠ [])
    (hsig : combineSignals []
      ((updates.map signalFromUpdate).take topN ++ videoSignals) ≠ []) :
    (generateRun topN videoSignals "" genId dateStr nowStr reports0 updates).raised = true ∧
    (generateRun topN videoSignals "" genId dateStr nowStr reports0 updates).apiCalled = true ∧
    (generateRun topN videoSignals "" genId dateStr nowStr reports0 updates).reports
      = reports0 ∧
    ∀ st : SchedState,
      (execStage today
        (fun _ => !(generateRun topN videoSignals "" genId dateStr nowStr
          reports0 updates).raised)
        ⟨st, [], []⟩ Stage.generate).state.generate = st.generate := by
  have h1 : generateRun topN videoSignals "" genId dateStr nowStr reports0 updates
      = ⟨true, true, reports0⟩ := by
    unfold generateRun
    rw [if_neg hne, if_neg hsig, if_pos rfl]
  rw [h1]
  refine ⟨rfl, rfl, rfl, fun st => ?_⟩
  simp [execStage]

/-- C8 witness: one valid update, no video signals, empty API response. -/
theorem c8_witness :
    (generateRun 5 [] "" (fun _ => "h") "2025-06-02" "2025-06-02 08:00:00" []
      [⟨"x", "t", "", "", "", 0, [], "", none⟩]).raised = true ∧
    (generateRun 5 [] "" (fun _ => "h") "2025-06-02" "2025-06-02 08:00:00" []
      [⟨"x", "t", "", "", "", 0, [], "", none⟩]).apiCalled = true ∧
    (generateRun 5 [] "" (fun _ => "h") "2025-06-02" "2025-06-02 08:00:00" []
      [⟨"x", "t", "", "", "", 0, [], "", none⟩]).reports = [] ∧
    ∀ st : SchedState,
      (execStage "2025-06-02"
        (fun _ => !(generateRun 5 [] "" (fun _ => "h") "2025-06-02" "2025-06-02 08:00:00" []
          [⟨"x", "t", "", "", "", 0, [], "", none⟩]).raised)
        ⟨st, [], []⟩ Stage.generate).state.generate = st.generate :=
  c8_generation_failure 5 [] (fun _ => "h") "2025-06-02" "2025-06-02" "2025-06-02 08:00:00" []
    [⟨"x", "t", "", "", "", 0, [], "", none⟩] (by decide) (by decide)

/-- C9: on an empty working list, `generate` returns normally without calling
the report API, appends one fallback report with the placeholder content and
today's date, and a scheduler execution of the stage body records today's date
as the `generate` success marker. -/
theorem c9_empty_fallback (topN : Nat) (videoSignals : List Signal) (apiContent : String)
    (genId : String → String) (today dateStr nowStr : String) (reports0 : List Report) :
    (generateRun topN videoSignals apiContent genId dateStr nowStr reports0 []).apiCalled
      = false ∧
    (generateRun topN videoSignals apiContent genId dateStr nowStr reports0 []).raised
      = false ∧
    (∃ rep : Report,
      (generateRun topN videoSignals apiContent genId dateStr nowStr reports0 []).reports
        = reports0 ++ [rep] ∧
      rep.content = "今日无更新数据。" ∧ rep.date = dateStr) ∧
    ∀ st : SchedState,
      (execStage today
        (fun _ => !(generateRun topN videoSignals apiContent genId dateStr nowStr
          reports0 []).raised)
        ⟨st, [], []⟩ Stage.generate).state.generate = some today := by
  have h1 : generateRun topN videoSignals apiContent genId dateStr nowStr reports0 []
      = ⟨false, false,
          appendReport genId dateStr nowStr reports0 "" "今日无更新数据。"⟩ := by
    unfold generateRun
    rw [if_pos rfl]
  rw [h1]
  refine ⟨rfl, rfl, ⟨⟨genId (pyOr (dateStr ++ "") "今日无更新数据。"), dateStr,
    pyOr "" "今日无更新数据。", nowStr⟩, rfl, rfl, rfl⟩, fun st => ?_⟩
  simp [execStage, setSuccess, getSuccess]

end AIIntel
